import Mathlib

set_option allowUnsafeReducibility true
attribute [local semireducible] Rat.add Rat.mul Rat.div Rat.sub Rat.neg Rat.inv

/-!
# Verification of the semantic metrics engine (`semanticEngine.ts`)

A shallow embedding of the metric evaluation engine: JavaScript values are
modelled by `JValue` (numbers as exact rationals `ℚ`), JS objects by
insertion-ordered association lists, the `Map` cache by an association list,
thrown errors by `Except String`, and the unbounded recursion of
`evaluateMetric` by an explicit fuel parameter.  `number | null` metric
results are modelled by `Option ℚ` (with `none` covering both JS `null` and
`NaN`, which the engine treats identically in `formatValue` and never
distinguishes elsewhere).
-/

namespace SemanticEngine

/-- A JavaScript value as it appears in rows and filter contexts.
`undefined` is JS `undefined` (e.g. a missing object property). -/
inductive JValue where
| num (q : ℚ)
| str (s : String)
| bool (b : Bool)
| null
| undefined
deriving DecidableEq, Repr

/-- JS `ToNumber` for the values the engine compares: numbers are themselves,
booleans coerce to 0/1, `null` to 0, `undefined` to NaN (`none`); strings
parse as optionally signed decimal literals, the empty string is 0, anything
else is NaN (`none`).  (Exotic JS numeric string forms are out of scope.) -/
def digitsToNat (d : List Char) : Option Nat :=
  if d.length > 0 && d.all Char.isDigit then
    some (d.foldl (fun acc c => acc * 10 + (c.toNat - 48)) 0)
  else none

def parseDecimal (s : String) : Option ℚ :=
  match s.data with
  | [] => some 0
  | cs =>
    let (sign, body) :=
      if cs.head? = some '-' then ((-1 : ℚ), cs.tail) else ((1 : ℚ), cs)
    let intPart := body.takeWhile (fun c => c ≠ '.')
    match body.dropWhile (fun c => c ≠ '.') with
    | [] => (digitsToNat intPart).map (fun n => sign * (n : ℚ))
    | _ :: fracPart =>
      if fracPart.contains '.' then none
      else
        match digitsToNat intPart, digitsToNat fracPart with
        | some n, some f =>
          some (sign * ((n : ℚ) + (f : ℚ) / ((10 : ℚ) ^ fracPart.length)))
        | _, _ => none

def toNumber : JValue → Option ℚ
| .num q => some q
| .str s => parseDecimal s
| .bool b => some (if b then 1 else 0)
| .null => some 0
| .undefined => none

/-- JS `value < bound` where `bound` is a number: NaN comparisons are false. -/
def jsLt (v : JValue) (b : ℚ) : Bool :=
  match toNumber v with
  | some n => decide (n < b)
  | none => false

/-- JS `value > bound`. -/
def jsGt (v : JValue) (b : ℚ) : Bool :=
  match toNumber v with
  | some n => decide (b < n)
  | none => false

/-- JS `value <= bound`. -/
def jsLe (v : JValue) (b : ℚ) : Bool :=
  match toNumber v with
  | some n => decide (n ≤ b)
  | none => false

/-- JS `value >= bound`. -/
def jsGe (v : JValue) (b : ℚ) : Bool :=
  match toNumber v with
  | some n => decide (b ≤ n)
  | none => false

/-- JS strict equality `===` between two engine values. -/
def strictEq : JValue → JValue → Bool
| .num a, .num b => a == b
| .str a, .str b => a == b
| .bool a, .bool b => a == b
| .null, .null => true
| .undefined, .undefined => true
| _, _ => false

/-- Source `FilterRange`: six optional numeric bounds.  A `none` field is an
absent property.  The source's `from`/`to` fields are spelled `fro`/`toB`
here because those words are reserved in Lean. -/
structure FilterRange where
  fro : Option ℚ := none
  toB : Option ℚ := none
  gte : Option ℚ := none
  lte : Option ℚ := none
  gt : Option ℚ := none
  lt : Option ℚ := none
deriving DecidableEq, Repr

/-- Source `FilterValue`: a primitive (string/number/boolean — and,
dynamically, also `null`/`undefined`, which `applyContextToFact` skips), a
range object, or a JS function value (which arises when a transforms registry
is passed where a filter context is expected; `typeof` it is "function", so
`matchesFilter` falls through to strict equality, which no row value
satisfies). -/
inductive FilterValue where
| prim (v : JValue)
| range (r : FilterRange)
| jsFunc
deriving DecidableEq, Repr

/-- An insertion-ordered JS object used as a filter context. -/
abbrev FilterContext := List (String × FilterValue)

/-- An insertion-ordered JS object used as a data row. -/
abbrev Row := List (String × JValue)

/-- JS `obj[k]`: property access, `undefined` when absent. -/
def rowGet (r : Row) (k : String) : JValue :=
  match r.lookup k with
  | some v => v
  | none => .undefined

/-- JS `obj[k] = v` on an object / `Map.set`: overwrite in place if the key is
present (keeping its position), else append. -/
def setAssoc {β : Type} : List (String × β) → String → β → List (String × β)
| [], k, v => [(k, v)]
| (a, b) :: t, k, v => if a = k then (k, v) :: t else (a, b) :: setAssoc t k v

/-- Source `matchesFilter`, line for line: a range object with a
`from` or `to` property present checks only those two bounds; otherwise the
`gte`/`lte` (inclusive) and `gt`/`lt` (exclusive) bounds are checked;
everything non-object is matched by strict equality. -/
def matchesFilter (value : JValue) (filter : FilterValue) : Bool :=
  match filter with
  | .range f =>
    if f.fro.isSome || f.toB.isSome then
      if (match f.fro with | some b => jsLt value b | none => false) then false
      else if (match f.toB with | some b => jsGt value b | none => false) then false
      else true
    else
      if (match f.gte with | some b => jsLt value b | none => false) then false
      else if (match f.lte with | some b => jsGt value b | none => false) then false
      else if (match f.gt with | some b => jsLe value b | none => false) then false
      else if (match f.lt with | some b => jsGe value b | none => false) then false
      else true
  | .prim p => strictEq value p
  | .jsFunc => false

/-- Was the context entry skipped by `applyContextToFact`'s
`filter === undefined || filter === null` test? -/
def isNullish : FilterValue → Bool
| .prim .null => true
| .prim .undefined => true
| _ => false

/-- Source `applyContextToFact`: fold the context entries over the
row set, skipping `null`/`undefined` filters and keys outside the grain, and
narrowing by `matchesFilter` otherwise.  The lazy LINQ sequence is modelled
by the filtered list itself. -/
def applyContextToFact (rows : List Row) (context : FilterContext)
    (grain : List String) : List Row :=
  context.foldl
    (fun q kf =>
      if isNullish kf.2 then q
      else if !grain.contains kf.1 then q
      else q.filter (fun r => matchesFilter (rowGet r kf.1) kf.2))
    rows

/-- Source `pick`: project an object onto `keys`, dropping keys
whose value is `undefined` (absent properties included). -/
def pick (obj : Row) (keys : List String) : Row :=
  keys.foldl
    (fun out k =>
      match obj.lookup k with
      | some v => if v = .undefined then out else setAssoc out k v
      | none => out)
    []

/-! ## JSON serialization (`JSON.stringify` as used for cache keys and group keys)

JS numbers are rendered as their exact rational literal (injective, like the
decimal rendering `JSON.stringify` performs); string escaping covers the
quote and backslash.  Properties whose value is `undefined` or a function are
omitted, exactly as `JSON.stringify` does for objects. -/

def escapeJson (s : String) : String :=
  s.data.foldl
    (fun acc c =>
      if c = '"' then acc ++ "\\\""
      else if c = '\\' then acc ++ "\\\\"
      else acc.push c)
    ""

def quoteJson (s : String) : String := "\"" ++ escapeJson s ++ "\""

/-- Serialize one range-object field (`"from":3` etc.) when present. -/
def rangeField (name : String) (v : Option ℚ) : List String :=
  match v with
  | some q => [quoteJson name ++ ":" ++ toString q]
  | none => []

/-- Serialization of a `FilterValue` by `JSON.stringify`; `none` means the enclosing property
is omitted (`undefined` and function values). -/
def jval : FilterValue → Option String
| .prim (.num q) => some (toString q)
| .prim (.str s) => some (quoteJson s)
| .prim (.bool b) => some (if b then "true" else "false")
| .prim .null => some "null"
| .prim .undefined => none
| .jsFunc => none
| .range r =>
  some ("\x7b" ++
    String.intercalate ","
      (rangeField "from" r.fro ++ rangeField "to" r.toB ++
       rangeField "gte" r.gte ++ rangeField "lte" r.lte ++
       rangeField "gt" r.gt ++ rangeField "lt" r.lt) ++ "\x7d")

/-- Serialization of a filter context (a JS object) by `JSON.stringify`, keys in insertion
order, `undefined`/function-valued properties omitted. -/
def jsonCtx (ctx : FilterContext) : String :=
  "\x7b" ++
    String.intercalate ","
      (ctx.filterMap (fun kv => (jval kv.2).map (fun s => quoteJson kv.1 ++ ":" ++ s))) ++
  "\x7d"

/-- Serialization of a data row (used for group keys). -/
def jsonRow (r : Row) : String :=
  jsonCtx (r.map (fun kv => (kv.1, .prim kv.2)))

/-- Source `cacheKey`: `metricName ++ "::" ++ JSON.stringify(context)`. -/
def cacheKey (metricName : String) (context : FilterContext) : String :=
  metricName ++ "::" ++ jsonCtx context

/-! ## Registries and metric definitions -/

/-- In-memory DB: named dimension tables and fact tables. -/
structure InMemoryDb where
  dimensions : List (String × List Row)
  facts : List (String × List Row)

/-- The three aggregations.  (The TS union type makes the evaluator's
"Unsupported aggregation" branch unreachable.) -/
inductive Agg where
| sum
| avg
| count
deriving DecidableEq, Repr

structure FactMeasureDefinition where
  column : String
  defaultAgg : Agg
  format : Option String := none

structure FactTableDefinition where
  grain : List String
  measures : List (String × FactMeasureDefinition)

abbrev FactTableRegistry := List (String × FactTableDefinition)

/-- The four metric kinds.  `name`/`description` play no role in evaluation
(the registry key is the name) and are not carried.  Caller-supplied
expression and combinator functions are opaque pure Lean functions. -/
inductive MetricDefinition where
| factMeasure (factTable factColumn : String) (agg : Option Agg)
    (grain : Option (List String)) (format : Option String)
| expression (factTable : String) (grain : Option (List String))
    (format : Option String)
    (expr : List Row → InMemoryDb → FilterContext → Option ℚ)
| derived (dependencies : List String) (format : Option String)
    (evalFromDeps : List (String × Option ℚ) → InMemoryDb → FilterContext → Option ℚ)
| contextTransform (baseMeasure transform : String) (format : Option String)

abbrev MetricRegistry := List (String × MetricDefinition)

/-- The display format of a metric definition. -/
def MetricDefinition.format : MetricDefinition → Option String
| .factMeasure _ _ _ _ f => f
| .expression _ _ f _ => f
| .derived _ f _ => f
| .contextTransform _ _ f => f

/-- A value stored in a transforms registry slot.  `fn` is a genuine
context-transform function; `notFn` is any other JS value found there (this
happens when a filter context is passed where the transforms registry is
expected, as `runQuery` does). -/
inductive TransformVal where
| fn (f : FilterContext → FilterContext)
| notFn (v : FilterValue)

abbrev ContextTransformsRegistry := List (String × TransformVal)

/-- JS truthiness of a filter value (for the `!transformFn` check). -/
def jsTruthy : FilterValue → Bool
| .prim (.num q) => q != 0
| .prim (.str s) => s != ""
| .prim (.bool b) => b
| .prim .null => false
| .prim .undefined => false
| .range _ => true
| .jsFunc => true

structure DimensionConfigEntry where
  table : String
  key : String
  labelProp : String
  labelAlias : String

abbrev DimensionConfig := List (String × DimensionConfigEntry)

/-! ## Aggregation over the filtered row set -/

/-- JS `Number(r[col] ?? 0)`: missing/null cells count as 0; non-numeric cells
are NaN (`none`), which poisons a sum/average exactly as in JS. -/
def cellNumber (r : Row) (col : String) : Option ℚ :=
  match rowGet r col with
  | .undefined => some 0
  | .null => some 0
  | v => toNumber v

/-- LINQ `sum` of `Number(r[col] ?? 0)`: 0 on the empty sequence; `none`
models a NaN result. -/
def sumRows (rows : List Row) (col : String) : Option ℚ :=
  rows.foldl
    (fun acc r =>
      match acc, cellNumber r col with
      | some a, some b => some (a + b)
      | _, _ => none)
    (some 0)

/-- LINQ `average`: the sum divided by the count; on the empty sequence the
result is aggregator-defined (NaN), modelled as `none`. -/
def avgRows (rows : List Row) (col : String) : Option ℚ :=
  if rows.length = 0 then none
  else (sumRows rows col).map (fun s => s / (rows.length : ℚ))

/-- Evaluate the effective aggregation over the filtered rows. -/
def aggregate (agg : Agg) (rows : List Row) (col : String) : Option ℚ :=
  match agg with
  | .sum => sumRows rows col
  | .avg => avgRows rows col
  | .count => some (rows.length : ℚ)

/-! ## The metric evaluator -/

/-- The per-call cache: `Map<string, number | null>` in insertion order. -/
abbrev Cache := List (String × Option ℚ)

def cacheLookup (c : Cache) (k : String) : Option (Option ℚ) := c.lookup k

/-- Result of one evaluator call: the returned value or thrown error, the
cache as mutated by the call, and the number of underlying aggregation /
caller-supplied function invocations the call performed (the instrumentation
the spec's idempotence property asks for). -/
abbrev EvalResult := Except String (Option ℚ) × Cache × ℕ

/-- The dependency loop of a derived metric: evaluate each dependency in
listed order with `ev`, threading the cache, collecting `name → value`, and
propagating the first thrown error. -/
def runDeps (ev : String → Cache → EvalResult) :
    List String → Cache → List (String × Option ℚ) →
    Except String (List (String × Option ℚ)) × Cache × ℕ
| [], cache, acc => (.ok acc, cache, 0)
| d :: ds, cache, acc =>
  match ev d cache with
  | (.ok v, c2, k) =>
    match runDeps ev ds c2 (setAssoc acc d v) with
    | (res, c3, k2) => (res, c3, k + k2)
  | (.error e, c2, k) => (.error e, c2, k)

/-- Source `evaluateMetric`, with an explicit fuel bound for the
unbounded JS recursion (fuel 0 models call-stack exhaustion).  Parameters
follow the source signature: name, db, fact tables, metric registry,
context, transforms, cache. -/
def evaluateMetric (fuel : ℕ) (metricName : String) (db : InMemoryDb)
    (factTables : FactTableRegistry) (metricRegistry : MetricRegistry)
    (context : FilterContext) (transforms : ContextTransformsRegistry)
    (cache : Cache) : EvalResult :=
  match fuel with
  | 0 => (.error "Maximum call stack size exceeded", cache, 0)
  | fuel + 1 =>
    let key := cacheKey metricName context
    match cacheLookup cache key with
    | some v => (.ok v, cache, 0)
    | none =>
      match metricRegistry.lookup metricName with
      | none => (.error ("Unknown metric: " ++ metricName), cache, 0)
      | some d =>
        match d with
        | .factMeasure factTable factColumn agg grain _fmt =>
          match factTables.lookup factTable with
          | none => (.error ("Unknown fact table: " ++ factTable), cache, 0)
          | some factDef =>
            match db.facts.lookup factTable with
            | none => (.error ("Missing rows for fact table: " ++ factTable), cache, 0)
            | some rows =>
              let effGrain := grain.getD factDef.grain
              let q := applyContextToFact rows context effGrain
              match factDef.measures.lookup factColumn with
              | none =>
                (.error ("Unknown fact column " ++ factColumn ++ " for table " ++ factTable),
                 cache, 0)
              | some fmd =>
                let value := aggregate (agg.getD fmd.defaultAgg) q fmd.column
                (.ok value, setAssoc cache key value, 1)
        | .expression factTable grain _fmt expr =>
          match factTables.lookup factTable with
          | none => (.error ("Unknown fact table: " ++ factTable), cache, 0)
          | some factDef =>
            match db.facts.lookup factTable with
            | none => (.error ("Missing rows for fact table: " ++ factTable), cache, 0)
            | some rows =>
              let effGrain := grain.getD factDef.grain
              let q := applyContextToFact rows context effGrain
              let value := expr q db context
              (.ok value, setAssoc cache key value, 1)
        | .derived dependencies _fmt evalFromDeps =>
          match runDeps
              (fun dep c =>
                evaluateMetric fuel dep db factTables metricRegistry context transforms c)
              dependencies cache [] with
          | (.error e, c2, k) => (.error e, c2, k)
          | (.ok depValues, c2, k) =>
            let value := evalFromDeps depValues db context
            (.ok value, setAssoc c2 key value, k + 1)
        | .contextTransform baseMeasure transform _fmt =>
          match transforms.lookup transform with
          | none => (.error ("Unknown context transform: " ++ transform), cache, 0)
          | some (.notFn v) =>
            if jsTruthy v then
              (.error "TypeError: transformFn is not a function", cache, 0)
            else (.error ("Unknown context transform: " ++ transform), cache, 0)
          | some (.fn f) =>
            match evaluateMetric fuel baseMeasure db factTables metricRegistry
                (f context) transforms cache with
            | (.ok v, c2, k) => (.ok v, setAssoc c2 key v, k + 1)
            | (.error e, c2, k) => (.error e, c2, k)
termination_by structural fuel

/-- The body of `evaluateMetrics`' loop: evaluate one metric with the shared
cache, record its value, and let a thrown error abort the whole call. -/
def metricsStep (fuel : ℕ) (db : InMemoryDb) (factTables : FactTableRegistry)
    (metricRegistry : MetricRegistry) (context : FilterContext)
    (transforms : ContextTransformsRegistry)
    (acc : Except String (List (String × Option ℚ) × Cache)) (m : String) :
    Except String (List (String × Option ℚ) × Cache) :=
  match acc with
  | .error e => .error e
  | .ok (results, cache) =>
    match evaluateMetric fuel m db factTables metricRegistry context transforms cache with
    | (.ok v, c2, _) => .ok (setAssoc results m v, c2)
    | (.error e, _, _) => .error e

/-- Source `evaluateMetrics`: evaluate several metrics with one
fresh shared cache, building a name → value map; a thrown error aborts the
whole call. -/
def evaluateMetrics (fuel : ℕ) (metricNames : List String) (db : InMemoryDb)
    (factTables : FactTableRegistry) (metricRegistry : MetricRegistry)
    (context : FilterContext) (transforms : ContextTransformsRegistry) :
    Except String (List (String × Option ℚ)) :=
  (metricNames.foldl
    (metricsStep fuel db factTables metricRegistry context transforms)
    (.ok ([], []))).map Prod.fst

/-! ## Formatting and the grouped query builder -/

/-- Left-pad a numeral string with zeros to the given width. -/
def padZeros (s : String) (width : ℕ) : String :=
  String.mk (List.replicate (width - s.length) '0') ++ s

/-- JS `Number.prototype.toFixed` on an exact rational (round half away from
zero, which matches `toFixed` on the values exercised here). -/
def toFixed (q : ℚ) (digits : ℕ) : String :=
  let scaled : ℤ := round (q * ((10 : ℚ) ^ digits))
  let sign := if scaled < 0 then "-" else ""
  let intPart := scaled.natAbs / 10 ^ digits
  let fracPart := scaled.natAbs % 10 ^ digits
  if digits = 0 then sign ++ toString intPart
  else sign ++ toString intPart ++ "." ++ padZeros (toString fracPart) digits

/-- Source `formatValue`: `null`/NaN yields no display value;
otherwise format by tag, defaulting to `String(n)` (rendered here as the
exact rational literal). -/
def formatValue (value : Option ℚ) (format : Option String) : Option String :=
  match value with
  | none => none
  | some n =>
    match format with
    | some "currency" => some ("$" ++ toFixed n 2)
    | some "integer" => some (toFixed n 0)
    | some "percent" => some (toFixed n 2 ++ "%")
    | _ => some (toString n)

/-- Source `enrichDimensions`: join each configured dimension key
present in `keyObj` to its label row and add the label under the alias. -/
def enrichDimensions (keyObj : Row) (db : InMemoryDb)
    (dimensionConfig : DimensionConfig) : Row :=
  dimensionConfig.foldl
    (fun result dkCfg =>
      let v := rowGet keyObj dkCfg.1
      if v = .null || v = .undefined then result
      else
        match db.dimensions.lookup dkCfg.2.table with
        | none => result
        | some dimTable =>
          match dimTable.find? (fun d => strictEq (rowGet d dkCfg.2.key) v) with
          | some m => setAssoc result dkCfg.2.labelAlias (rowGet m dkCfg.2.labelProp)
          | none => result)
    keyObj

/-- JS object spread `{...a, ...b}`: keys of `a` in order (values overridden
by `b` on collision), then the new keys of `b` in order. -/
def jsSpread {β : Type} (a b : List (String × β)) : List (String × β) :=
  b.foldl (fun acc kv => setAssoc acc kv.1 kv.2) a

/-- A data row reinterpreted as a filter context (the group key/value pairs
merged into the base filters). -/
def ctxOfRow (r : Row) : FilterContext :=
  r.map (fun kv => (kv.1, .prim kv.2))

/-- The transforms registry viewed as a filter context, which is what
`evaluateMetric` receives for its `context` parameter in `runQuery`'s
argument order: each registry entry is a function-valued property. -/
def ctxOfTransforms (ts : ContextTransformsRegistry) : FilterContext :=
  ts.map (fun kv => (kv.1, .jsFunc))

/-- A filter context viewed as a transforms registry, which is what
`evaluateMetric` receives for its `transforms` parameter in `runQuery`'s
argument order: the entries are present but are not functions. -/
def transformsOfCtx (ctx : FilterContext) : ContextTransformsRegistry :=
  ctx.map (fun kv => (kv.1, .notFn kv.2))

/-- LINQ `groupBy` on a string key, in first-encounter order, keeping for
each group the projected key object of its first row (which is what
`JSON.parse` of the serialized group key yields, the serialization
round-tripping on `undefined`-free projections) and its member rows in
input order. -/
def addToGroup (groups : List (String × Row × List Row)) (k : String)
    (kObj : Row) (r : Row) : List (String × Row × List Row) :=
  match groups with
  | [] => [(k, kObj, [r])]
  | (k0, o0, rs) :: t =>
    if k0 = k then (k0, o0, rs ++ [r]) :: t
    else (k0, o0, rs) :: addToGroup t k kObj r

/-- Source `RunQueryOptions` (`filters` defaulting to `{}` at the
call site is modelled by passing `[]`). -/
structure RunQueryOptions where
  rows : List String
  filters : FilterContext
  metrics : List String
  factForRows : String

/-- Source `runQuery`: filter the fact rows by the base filters
against the first row's column set, group by the serialized projection onto
the requested row dimensions, then for every group evaluate each requested
metric with one shared cache and emit the enriched key object merged with
the formatted metric values.

The source calls `evaluateMetric(m, db, factTables, metricRegistry,
transforms, rowContext, cache)` although the parameter order of
`evaluateMetric` is `(metricName, db, factTables, metricRegistry, context,
transforms, cache)`: the transforms registry is passed as the filter
context and the row context as the transforms registry, and that is
embedded here verbatim via `ctxOfTransforms`/`transformsOfCtx`. -/
def runQuery (fuel : ℕ) (db : InMemoryDb) (factTables : FactTableRegistry)
    (metricRegistry : MetricRegistry) (transforms : ContextTransformsRegistry)
    (dimensionConfig : DimensionConfig) (options : RunQueryOptions) :
    Except String (List Row) :=
  match db.facts.lookup options.factForRows with
  | none => .error ("Unknown fact table: " ++ options.factForRows)
  | some factRows =>
    let factGrain := (factRows.headD []).map Prod.fst
    let filtered := applyContextToFact factRows options.filters factGrain
    let groups := filtered.foldl
      (fun gs r => addToGroup gs (jsonRow (pick r options.rows)) (pick r options.rows) r) []
    let metricStep := fun (rowContext : FilterContext)
        (acc : Except String (Row × Cache)) (m : String) =>
      match acc with
      | .error e => .error e
      | .ok (metricValues, cache) =>
        match evaluateMetric fuel m db factTables metricRegistry
            (ctxOfTransforms transforms) (transformsOfCtx rowContext) cache with
        | (.error e, _, _) => .error e
        | (.ok numericValue, c2, _) =>
          let fmt := (metricRegistry.lookup m).bind MetricDefinition.format
          let cell := match formatValue numericValue fmt with
            | some s => JValue.str s
            | none => JValue.null
          .ok (setAssoc metricValues m cell, c2)
    let groupStep := fun (acc : Except String (List Row × Cache))
        (g : String × Row × List Row) =>
      match acc with
      | .error e => .error e
      | .ok (result, cache) =>
        let keyObj := g.2.1
        let rowContext := jsSpread options.filters (ctxOfRow keyObj)
        match options.metrics.foldl (metricStep rowContext) (.ok ([], cache)) with
        | .error e => .error e
        | .ok (metricValues, c2) =>
          let dimPart := enrichDimensions keyObj db dimensionConfig
          .ok (result ++ [jsSpread dimPart metricValues], c2)
    (groups.foldl groupStep (.ok ([], []))).map Prod.fst

/-! ## Definitions written from the spec's words, for comparison -/

/-- Modelled from the spec: "every present bound is checked (`from`/`to`
inclusive; `gte`/`lte` inclusive; `gt`/`lt` exclusive); a missing bound
imposes no constraint" — the conjunction of all six bound checks. -/
def specAllBoundsOk (v : JValue) (f : FilterRange) : Bool :=
  (match f.fro with | some b => !(jsLt v b) | none => true) &&
  ((match f.toB with | some b => !(jsGt v b) | none => true) &&
  ((match f.gte with | some b => !(jsLt v b) | none => true) &&
  ((match f.lte with | some b => !(jsGt v b) | none => true) &&
  ((match f.gt with | some b => !(jsLe v b) | none => true) &&
  (match f.lt with | some b => !(jsGe v b) | none => true)))))

/-- The inclusive `from`/`to` checks alone. -/
def specFromToOk (v : JValue) (f : FilterRange) : Bool :=
  (match f.fro with | some b => !(jsLt v b) | none => true) &&
  (match f.toB with | some b => !(jsGt v b) | none => true)

/-- The `gte`/`lte` (inclusive) and `gt`/`lt` (exclusive) checks alone. -/
def specCmpBoundsOk (v : JValue) (f : FilterRange) : Bool :=
  (match f.gte with | some b => !(jsLt v b) | none => true) &&
  ((match f.lte with | some b => !(jsGt v b) | none => true) &&
  ((match f.gt with | some b => !(jsLe v b) | none => true) &&
  (match f.lt with | some b => !(jsGe v b) | none => true)))

/-- Does every context entry pass for this row (entries skipped by
`applyContextToFact` pass trivially)?  `applyContextToFact` filters to
exactly the rows satisfying this conjunction. -/
def ctxPass (context : FilterContext) (grain : List String) (r : Row) : Bool :=
  context.all
    (fun kf => isNullish kf.2 || !grain.contains kf.1 ||
      matchesFilter (rowGet r kf.1) kf.2)

/-- Is a metric definition a context-transform metric? -/
def isCT : MetricDefinition → Bool
| .contextTransform _ _ _ => true
| _ => false

/-- The fact table a fact-measure or expression metric reads from. -/
def metricFactTable : MetricDefinition → Option String
| .factMeasure ft _ _ _ _ => some ft
| .expression ft _ _ _ => some ft
| _ => none

/-! ## The reference cache-free evaluator

`evalP` is `evaluateMetric` with the cache removed: the defining equations
mirror the source dispatch exactly, and `none` means the fuel ran out (so a
`some` result is the ideal, cache-free semantics of the call).  It is the
pivot used to prove that the per-call cache is semantically transparent for
transform-free registries. -/

def pureDeps (ev : String → Option (Except String (Option ℚ))) :
    List String → List (String × Option ℚ) →
    Option (Except String (List (String × Option ℚ)))
| [], acc => some (.ok acc)
| d :: ds, acc =>
  match ev d with
  | none => none
  | some (.error e) => some (.error e)
  | some (.ok v) => pureDeps ev ds (setAssoc acc d v)

def evalP (fuel : ℕ) (metricName : String) (db : InMemoryDb)
    (factTables : FactTableRegistry) (metricRegistry : MetricRegistry)
    (context : FilterContext) (transforms : ContextTransformsRegistry) :
    Option (Except String (Option ℚ)) :=
  match fuel with
  | 0 => none
  | fuel + 1 =>
    match metricRegistry.lookup metricName with
    | none => some (.error ("Unknown metric: " ++ metricName))
    | some d =>
      match d with
      | .factMeasure factTable factColumn agg grain _fmt =>
        match factTables.lookup factTable with
        | none => some (.error ("Unknown fact table: " ++ factTable))
        | some factDef =>
          match db.facts.lookup factTable with
          | none => some (.error ("Missing rows for fact table: " ++ factTable))
          | some rows =>
            let q := applyContextToFact rows context (grain.getD factDef.grain)
            match factDef.measures.lookup factColumn with
            | none =>
              some (.error ("Unknown fact column " ++ factColumn ++ " for table " ++ factTable))
            | some fmd =>
              some (.ok (aggregate (agg.getD fmd.defaultAgg) q fmd.column))
      | .expression factTable grain _fmt expr =>
        match factTables.lookup factTable with
        | none => some (.error ("Unknown fact table: " ++ factTable))
        | some factDef =>
          match db.facts.lookup factTable with
          | none => some (.error ("Missing rows for fact table: " ++ factTable))
          | some rows =>
            let q := applyContextToFact rows context (grain.getD factDef.grain)
            some (.ok (expr q db context))
      | .derived dependencies _fmt evalFromDeps =>
        match pureDeps
            (fun dep =>
              evalP fuel dep db factTables metricRegistry context transforms)
            dependencies [] with
        | none => none
        | some (.error e) => some (.error e)
        | some (.ok depValues) => some (.ok (evalFromDeps depValues db context))
      | .contextTransform baseMeasure transform _fmt =>
        match transforms.lookup transform with
        | none => some (.error ("Unknown context transform: " ++ transform))
        | some (.notFn v) =>
          if jsTruthy v then some (.error "TypeError: transformFn is not a function")
          else some (.error ("Unknown context transform: " ++ transform))
        | some (.fn f) =>
          evalP fuel baseMeasure db factTables metricRegistry (f context) transforms
termination_by structural fuel

/-- A cache is sound for a fixed environment and context when every entry
stored under some metric's cache key holds that metric's ideal cache-free
value. -/
def CacheOk (db : InMemoryDb) (factTables : FactTableRegistry)
    (metricRegistry : MetricRegistry) (context : FilterContext)
    (transforms : ContextTransformsRegistry) (c : Cache) : Prop :=
  ∀ n v, cacheLookup c (cacheKey n context) = some v →
    ∃ g, evalP g n db factTables metricRegistry context transforms = some (.ok v)

/-! ## Concrete fixtures used by counterexamples and witnesses -/

/-- A two-row fact table keyed by dimension `g` with measure column `v`. -/
def dbA : InMemoryDb :=
  ⟨[], [("f", [[("g", .num 1), ("v", .num 10)], [("g", .num 2), ("v", .num 20)]])]⟩

def ftsA : FactTableRegistry := [("f", ⟨["g"], [("v", ⟨"v", .sum, none⟩)]⟩)]

/-- One fact-measure metric `M` = sum of `v`. -/
def regA : MetricRegistry := [("M", .factMeasure "f" "v" none none none)]

/-- Registry `regA` plus a context-transform metric `Y` over `M`. -/
def regCT : MetricRegistry := regA ++ [("Y", .contextTransform "M" "t" none)]

def tsCT : ContextTransformsRegistry :=
  [("t", .fn (fun c => setAssoc c "g" (.prim (.num 2))))]

/-- Registry `regA` plus a dependency-free derived metric (used to show `runQuery`
never consults the fact-table registry for `factForRows`). -/
def regD : MetricRegistry :=
  regA ++ [("T7", .derived [] none (fun _ _ _ => some 7))]

/-- An expression metric that observes whether the key `x` is present in its
context, plus two context-transform metrics whose transforms produce the
contexts `[("x", undefined)]` and `[]` — distinct contexts with identical
serializations. -/
def regE : MetricRegistry :=
  [("E", .expression "f" none none
      (fun _ _ c => if (c.lookup "x").isSome then some 1 else some 2)),
   ("ct1", .contextTransform "E" "tf" none),
   ("ct2", .contextTransform "E" "tg" none)]

def tsE : ContextTransformsRegistry :=
  [("tf", .fn (fun _ => [("x", .prim .undefined)])), ("tg", .fn (fun _ => []))]

/-! ## Helper lemmas -/

/-- The fold step of `applyContextToFact`. -/
def applyStep (grain : List String) (q : List Row) (kf : String × FilterValue) :
    List Row :=
  if isNullish kf.2 then q
  else if !grain.contains kf.1 then q
  else q.filter (fun r => matchesFilter (rowGet r kf.1) kf.2)

/-- The fold step of `pick`. -/
def pickStep (obj : Row) (out : Row) (k : String) : Row :=
  match obj.lookup k with
  | some v => if v = .undefined then out else setAssoc out k v
  | none => out


lemma if_bool_ff (c b : Bool) : (if c then false else b) = (!c && b) := by
  cases c <;> simp

lemma string_append_left_cancel (p s t : String) (h : p ++ s = p ++ t) :
    s = t := by
  have hd := congrArg String.data h
  simp only [String.data_append] at hd
  exact String.ext (List.append_cancel_left hd)

lemma lookup_mem {β : Type} {l : List (String × β)} {k : String} {v : β}
    (h : l.lookup k = some v) : (k, v) ∈ l := by
  induction l with
  | nil => simp [List.lookup] at h
  | cons a t ih =>
    obtain ⟨a1, a2⟩ := a
    rw [List.lookup] at h
    split at h
    · next heq =>
      injection h with h2
      simp only [beq_iff_eq] at heq
      subst heq; subst h2
      exact List.mem_cons_self _ _
    · next => exact List.mem_cons_of_mem _ (ih h)

lemma lookup_setAssoc_self {β : Type} (l : List (String × β)) (k : String)
    (v : β) : (setAssoc l k v).lookup k = some v := by
  induction l with
  | nil => simp [setAssoc, List.lookup]
  | cons a t ih =>
    obtain ⟨a1, a2⟩ := a
    by_cases hk : a1 = k
    · subst hk; simp [setAssoc, List.lookup]
    · have hbeq : (k == a1) = false := by simp [Ne.symm hk]
      simp [setAssoc, hk, List.lookup, hbeq, ih]

lemma lookup_setAssoc_ne {β : Type} (l : List (String × β)) (k k' : String)
    (v : β) (h : k' ≠ k) : (setAssoc l k v).lookup k' = l.lookup k' := by
  have hbeq : (k' == k) = false := by simp [h]
  induction l with
  | nil => simp [setAssoc, List.lookup, hbeq]
  | cons a t ih =>
    obtain ⟨a1, a2⟩ := a
    by_cases hk : a1 = k
    · subst hk; simp [setAssoc, List.lookup, hbeq]
    · by_cases hk' : k' = a1
      · subst hk'; simp [setAssoc, hk, List.lookup]
      · have hbeq' : (k' == a1) = false := by simp [hk']
        simp [setAssoc, hk, List.lookup, hbeq', ih]

lemma mem_lookup_of_nodup {β : Type} {l : List (String × β)}
    (h : (l.map Prod.fst).Nodup) {k : String} {v : β} (hm : (k, v) ∈ l) :
    l.lookup k = some v := by
  induction l with
  | nil => simp at hm
  | cons a t ih =>
    obtain ⟨a1, a2⟩ := a
    simp only [List.map_cons, List.nodup_cons] at h
    rcases List.mem_cons.mp hm with heq | hmt
    · injection heq with e1 e2
      subst e1; subst e2
      simp [List.lookup]
    · have hk : k ≠ a1 := by
        intro e
        subst e
        exact h.1 (List.mem_map.mpr ⟨(k, v), hmt, rfl⟩)
      have hbeq : (k == a1) = false := by simp [hk]
      simp [List.lookup, hbeq]
      exact ih h.2 hmt

lemma applyContextToFact_eq_foldl (rows : List Row) (ctx : FilterContext)
    (grain : List String) :
    applyContextToFact rows ctx grain = ctx.foldl (applyStep grain) rows := rfl

/-- The grain-aware filter is the one-pass filter by the conjunction of all
applicable context entries (filters are conjunctive; application order does
not matter). -/
lemma applyContextToFact_eq_filter (ctx : FilterContext) (rows : List Row)
    (grain : List String) :
    applyContextToFact rows ctx grain = rows.filter (ctxPass ctx grain) := by
  induction ctx generalizing rows with
  | nil =>
    rw [applyContextToFact_eq_foldl]
    simp only [List.foldl_nil]
    exact (List.filter_eq_self.mpr (fun r _ => rfl)).symm
  | cons kf cs ih =>
    rw [applyContextToFact_eq_foldl, List.foldl_cons,
      ← applyContextToFact_eq_foldl, ih]
    have hpass : ∀ r, ctxPass (kf :: cs) grain r =
        ((isNullish kf.2 || !grain.contains kf.1 ||
          matchesFilter (rowGet r kf.1) kf.2) && ctxPass cs grain r) := by
      intro r; simp [ctxPass]
    by_cases h1 : isNullish kf.2
    · simp only [applyStep, h1, if_true]
      refine (List.filter_congr ?_).symm
      intro r _
      simp [hpass, h1]
    · by_cases h2 : kf.1 ∈ grain
      · have h2c : grain.contains kf.1 = true := List.elem_iff.mpr h2
        simp only [applyStep, h1, if_false, h2c, Bool.not_true,
          Bool.false_eq_true, if_false]
        rw [List.filter_filter]
        refine (List.filter_congr ?_).symm
        intro r _
        rw [hpass r]
        simp [h1, h2, Bool.and_comm]
      · have h2c : grain.contains kf.1 = false := by
          simpa using (fun hc => h2 (List.elem_iff.mp hc))
        simp only [applyStep, h1, if_false, h2c, Bool.not_false, if_true]
        refine (List.filter_congr ?_).symm
        intro r _
        rw [hpass r]
        simp only [h2c, Bool.not_false, Bool.or_true, Bool.true_or,
          Bool.true_and]

/-- On nodup-keyed contexts, passing the grain filter is a property of the
context's lookup function restricted to the grain. -/
lemma ctxPass_eq_of_agree (C C' : FilterContext) (grain : List String)
    (h1 : (C.map Prod.fst).Nodup) (h2 : (C'.map Prod.fst).Nodup)
    (hagree : ∀ k ∈ grain, C.lookup k = C'.lookup k) (r : Row) :
    ctxPass C grain r = ctxPass C' grain r := by
  have key : ∀ (D : FilterContext), (D.map Prod.fst).Nodup →
      (ctxPass D grain r = true ↔
        ∀ k ∈ grain, ∀ f, D.lookup k = some f →
          (isNullish f || matchesFilter (rowGet r k) f) = true) := by
    intro D hD
    unfold ctxPass
    rw [List.all_eq_true]
    constructor
    · intro hall k hk f hf
      have hmem := lookup_mem hf
      have hall2 := hall (k, f) hmem
      rcases (by simpa using hall2 :
          (isNullish f = true ∨ k ∉ grain) ∨
            matchesFilter (rowGet r k) f = true) with (h | h) | h
      · simp [h]
      · exact absurd hk h
      · simp [h]
    · intro hchar kf hmem
      by_cases hn : isNullish kf.2
      · simp [hn]
      · by_cases hg : kf.1 ∈ grain
        · have hlk := mem_lookup_of_nodup hD hmem
          have hch := hchar kf.1 hg kf.2 hlk
          have hkc : grain.contains kf.1 = true := List.elem_iff.mpr hg
          simp only [hkc, Bool.not_true]
          simpa [hn] using hch
        · simp only [Bool.or_eq_true]
          exact Or.inl (Or.inr (by simpa using hg))
  have hiff : ctxPass C grain r = true ↔ ctxPass C' grain r = true := by
    rw [key C h1, key C' h2]
    constructor
    · intro hc k hk f hf
      exact hc k hk f ((hagree k hk) ▸ hf)
    · intro hc k hk f hf
      exact hc k hk f ((hagree k hk).symm ▸ hf)
  cases hC : ctxPass C grain r <;> cases hC' : ctxPass C' grain r <;>
    simp_all

lemma pick_eq_foldl (obj : Row) (keys : List String) :
    pick obj keys = keys.foldl (pickStep obj) [] := rfl

lemma pickStep_congr (r1 r2 : Row) (k : String)
    (h : rowGet r1 k = rowGet r2 k) (out : Row) :
    pickStep r1 out k = pickStep r2 out k := by
  unfold pickStep
  unfold rowGet at h
  cases h1 : r1.lookup k <;> cases h2 : r2.lookup k <;>
    rw [h1, h2] at h <;> simp_all

lemma pick_congr (dims : List String) (r1 r2 : Row)
    (h : ∀ k ∈ dims, rowGet r1 k = rowGet r2 k) :
    pick r1 dims = pick r2 dims := by
  rw [pick_eq_foldl, pick_eq_foldl]
  have H : ∀ acc, dims.foldl (pickStep r1) acc = dims.foldl (pickStep r2) acc := by
    induction dims with
    | nil => intro acc; rfl
    | cons k ds ih =>
      intro acc
      rw [List.foldl_cons, List.foldl_cons,
        pickStep_congr r1 r2 k (h k (List.mem_cons_self _ _)) acc]
      exact ih (fun k' hk' => h k' (List.mem_cons_of_mem _ hk')) _
  exact H []

lemma lookup_setAssoc_cases {β : Type} (l : List (String × β)) (k n : String)
    (v w : β) (h : (setAssoc l k v).lookup n = some w) :
    (n = k ∧ w = v) ∨ l.lookup n = some w := by
  by_cases hn : n = k
  · subst hn
    rw [lookup_setAssoc_self] at h
    injection h with h
    exact Or.inl ⟨rfl, h.symm⟩
  · right; rwa [lookup_setAssoc_ne _ _ _ _ hn] at h

/-- For a fixed context, the cache key determines the metric name. -/
lemma cacheKey_name_inj (n n' : String) (ctx : FilterContext)
    (h : cacheKey n ctx = cacheKey n' ctx) : n = n' := by
  unfold cacheKey at h
  have hd := congrArg String.data h
  simp only [String.data_append] at hd
  exact String.ext
    (List.append_cancel_right (List.append_cancel_right hd))

lemma pureDeps_mono_ev (ev ev' : String → Option (Except String (Option ℚ)))
    (h : ∀ d r, ev d = some r → ev' d = some r) :
    ∀ (deps : List String) (acc : List (String × Option ℚ)) r,
      pureDeps ev deps acc = some r → pureDeps ev' deps acc = some r := by
  intro deps
  induction deps with
  | nil => intro acc r hr; exact hr
  | cons d ds ih =>
    intro acc r hr
    unfold pureDeps at hr ⊢
    cases hev : ev d with
    | none => rw [hev] at hr; exact absurd hr (by simp)
    | some x =>
      rw [hev] at hr
      rw [h d x hev]
      cases x with
      | error e => exact hr
      | ok v => exact ih _ _ hr

lemma evalP_mono_succ (db : InMemoryDb) (fts : FactTableRegistry)
    (reg : MetricRegistry) (ts : ContextTransformsRegistry) :
    ∀ (fuel : ℕ) (n : String) (ctx : FilterContext) r,
      evalP fuel n db fts reg ctx ts = some r →
      evalP (fuel + 1) n db fts reg ctx ts = some r := by
  intro fuel
  induction fuel with
  | zero => intro n ctx r h; simp [evalP] at h
  | succ fuel ih =>
    intro n ctx r h
    simp only [evalP] at h
    obtain ⟨F, hF⟩ : ∃ F, F = fuel + 1 := ⟨_, rfl⟩
    have ihF : ∀ d ctx2 r2, evalP fuel d db fts reg ctx2 ts = some r2 →
        evalP F d db fts reg ctx2 ts = some r2 := by
      intro d ctx2 r2 hr
      rw [hF]
      exact ih d ctx2 r2 hr
    rw [show fuel + 1 + 1 = F + 1 by rw [hF]]
    simp only [evalP]
    cases hreg : reg.lookup n with
    | none => simp only [hreg] at h ⊢; exact h
    | some d =>
      cases d with
      | factMeasure ft col agg gr fmt => simp only [hreg] at h ⊢; exact h
      | expression ft gr fmt e => simp only [hreg] at h ⊢; exact h
      | derived deps fmt e =>
        simp only [hreg] at h ⊢
        cases hd : pureDeps (fun dep => evalP fuel dep db fts reg ctx ts) deps [] with
        | none => rw [hd] at h; simp at h
        | some x =>
          rw [hd] at h
          rw [pureDeps_mono_ev _ _ (fun d r hr => ihF d ctx r hr) deps [] x hd]
          exact h
      | contextTransform base tr fmt =>
        simp only [hreg] at h ⊢
        cases htr : ts.lookup tr with
        | none => simp only [htr] at h ⊢; exact h
        | some tv =>
          cases tv with
          | notFn v => simp only [htr] at h ⊢; exact h
          | fn f =>
            simp only [htr] at h ⊢
            exact ihF base (f ctx) r h

lemma evalP_mono_le (db : InMemoryDb) (fts : FactTableRegistry)
    (reg : MetricRegistry) (ts : ContextTransformsRegistry)
    {f g : ℕ} (hle : f ≤ g) (n : String) (ctx : FilterContext) {r}
    (h : evalP f n db fts reg ctx ts = some r) :
    evalP g n db fts reg ctx ts = some r := by
  induction hle with
  | refl => exact h
  | step hle ih => exact evalP_mono_succ db fts reg ts _ n ctx r ih

lemma evalP_det (db : InMemoryDb) (fts : FactTableRegistry)
    (reg : MetricRegistry) (ts : ContextTransformsRegistry)
    {f g : ℕ} (n : String) (ctx : FilterContext) {r r'}
    (h1 : evalP f n db fts reg ctx ts = some r)
    (h2 : evalP g n db fts reg ctx ts = some r') : r = r' := by
  rcases le_total f g with hle | hle
  · have := evalP_mono_le db fts reg ts hle n ctx h1
    rw [this] at h2
    injection h2
  · have := evalP_mono_le db fts reg ts hle n ctx h2
    rw [this] at h1
    injection h1 with h1
    exact h1.symm

/-- Dependency-loop counterpart of `evaluateMetric_agrees`: if the one-step
evaluator preserves cache soundness and agrees with the cache-free
evaluator, so does the dependency loop. -/
lemma runDeps_agrees (db : InMemoryDb) (fts : FactTableRegistry)
    (reg : MetricRegistry) (ts : ContextTransformsRegistry)
    (ctx : FilterContext) (ev : String → Cache → EvalResult)
    (hev : ∀ d c r c' k, CacheOk db fts reg ctx ts c → ev d c = (r, c', k) →
      CacheOk db fts reg ctx ts c' ∧
        ∀ v, r = .ok v → ∃ g, evalP g d db fts reg ctx ts = some (.ok v)) :
    ∀ (deps : List String) (c : Cache) (acc : List (String × Option ℚ))
      res c2 k, CacheOk db fts reg ctx ts c →
      runDeps ev deps c acc = (res, c2, k) →
      CacheOk db fts reg ctx ts c2 ∧
        ∀ vals, res = .ok vals → ∃ g,
          pureDeps (fun dep => evalP g dep db fts reg ctx ts) deps acc =
            some (.ok vals) := by
  intro deps
  induction deps with
  | nil =>
    intro c acc res c2 k hc h
    unfold runDeps at h
    simp only [Prod.mk.injEq] at h
    obtain ⟨hres, hcc, hk⟩ := h
    subst hres; subst hcc
    refine ⟨hc, ?_⟩
    intro vals hv
    injection hv with hv
    subst hv
    exact ⟨0, rfl⟩
  | cons d ds ih =>
    intro c acc res c2 k hc h
    unfold runDeps at h
    rcases hev1 : ev d c with ⟨r1, cA, k1⟩
    simp only [hev1] at h
    obtain ⟨hcA, hagree1⟩ := hev d c r1 cA k1 hc hev1
    cases r1 with
    | error e =>
      simp only [Prod.mk.injEq] at h
      obtain ⟨hres, hcc, hk⟩ := h
      subst hres; subst hcc
      exact ⟨hcA, fun vals hv => by simp at hv⟩
    | ok v =>
      rcases hrest : runDeps ev ds cA (setAssoc acc d v) with ⟨res3, c3, k2⟩
      simp only [hrest, Prod.mk.injEq] at h
      obtain ⟨hres, hcc, hk⟩ := h
      subst hres; subst hcc
      obtain ⟨hc3, hagree3⟩ := ih cA (setAssoc acc d v) res3 c3 k2 hcA hrest
      refine ⟨hc3, ?_⟩
      intro vals hv
      obtain ⟨g2, hg2⟩ := hagree3 vals hv
      obtain ⟨g1, hg1⟩ := hagree1 v rfl
      refine ⟨max g1 g2, ?_⟩
      unfold pureDeps
      rw [evalP_mono_le db fts reg ts (le_max_left g1 g2) d ctx hg1]
      exact pureDeps_mono_ev _ _
        (fun d2 r2 hr2 => evalP_mono_le db fts reg ts (le_max_right g1 g2) d2 ctx hr2)
        ds (setAssoc acc d v) _ hg2

/-- Transform-free cache soundness: in a registry with no context-transform
metrics every recursive evaluation keeps the top context, all cache keys in
play share that context's serialization (so they pin down the metric name),
and a call from a sound cache leaves a sound cache and — when it returns a
value — agrees with the cache-free evaluator. -/
lemma evaluateMetric_agrees (db : InMemoryDb) (fts : FactTableRegistry)
    (reg : MetricRegistry) (ts : ContextTransformsRegistry)
    (hTF : ∀ p ∈ reg, isCT p.2 = false) :
    ∀ (fuel : ℕ) (n : String) (ctx : FilterContext) (c : Cache) r c' k,
      CacheOk db fts reg ctx ts c →
      evaluateMetric fuel n db fts reg ctx ts c = (r, c', k) →
      CacheOk db fts reg ctx ts c' ∧
        ∀ v, r = .ok v → ∃ g, evalP g n db fts reg ctx ts = some (.ok v) := by
  intro fuel
  induction fuel with
  | zero =>
    intro n ctx c r c' k hc h
    simp only [evaluateMetric, Prod.mk.injEq] at h
    obtain ⟨hres, hcc, hk⟩ := h
    subst hres; subst hcc
    exact ⟨hc, fun v hv => by simp at hv⟩
  | succ fuel ih =>
    intro n ctx c r c' k hc h
    simp only [evaluateMetric] at h
    cases hlook : cacheLookup c (cacheKey n ctx) with
    | some v0 =>
      simp only [hlook] at h
      simp only [Prod.mk.injEq] at h
      obtain ⟨hres, hcc, hk⟩ := h
      subst hres; subst hcc
      refine ⟨hc, ?_⟩
      intro v hv
      injection hv with hv
      subst hv
      exact hc n v0 hlook
    | none =>
      simp only [hlook] at h
      cases hreg : reg.lookup n with
      | none =>
        simp only [hreg] at h
        simp only [Prod.mk.injEq] at h
        obtain ⟨hres, hcc, hk⟩ := h
        subst hres; subst hcc
        exact ⟨hc, fun v hv => by simp at hv⟩
      | some d =>
        simp only [hreg] at h
        cases d with
        | factMeasure ft col agg gr fmt =>
          cases hft : fts.lookup ft with
          | none =>
            simp only [hft] at h
            simp only [Prod.mk.injEq] at h
            obtain ⟨hres, hcc, hk⟩ := h
            subst hres; subst hcc
            exact ⟨hc, fun v hv => by simp at hv⟩
          | some ftd =>
            simp only [hft] at h
            cases hrows : db.facts.lookup ft with
            | none =>
              simp only [hrows] at h
              simp only [Prod.mk.injEq] at h
              obtain ⟨hres, hcc, hk⟩ := h
              subst hres; subst hcc
              exact ⟨hc, fun v hv => by simp at hv⟩
            | some rows =>
              simp only [hrows] at h
              cases hcol : ftd.measures.lookup col with
              | none =>
                simp only [hcol] at h
                simp only [Prod.mk.injEq] at h
                obtain ⟨hres, hcc, hk⟩ := h
                subst hres; subst hcc
                exact ⟨hc, fun v hv => by simp at hv⟩
              | some fmd =>
                simp only [hcol] at h
                simp only [Prod.mk.injEq] at h
                obtain ⟨hres, hcc, hk⟩ := h
                subst hres; subst hcc
                have hagr : ∃ g, evalP g n db fts reg ctx ts =
                    some (.ok (aggregate (agg.getD fmd.defaultAgg)
                      (applyContextToFact rows ctx (gr.getD ftd.grain))
                      fmd.column)) :=
                  ⟨1, by simp [evalP, hreg, hft, hrows, hcol]⟩
                refine ⟨?_, ?_⟩
                · intro n2 v2 hl2
                  rcases lookup_setAssoc_cases _ _ _ _ _ hl2 with ⟨hkey, hval⟩ | hold
                  · have hn2 : n2 = n := cacheKey_name_inj _ _ _ hkey
                    subst hn2; subst hval
                    exact hagr
                  · exact hc n2 v2 hold
                · intro v hv
                  injection hv with hv
                  subst hv
                  exact hagr
        | expression ft gr fmt e =>
          cases hft : fts.lookup ft with
          | none =>
            simp only [hft] at h
            simp only [Prod.mk.injEq] at h
            obtain ⟨hres, hcc, hk⟩ := h
            subst hres; subst hcc
            exact ⟨hc, fun v hv => by simp at hv⟩
          | some ftd =>
            simp only [hft] at h
            cases hrows : db.facts.lookup ft with
            | none =>
              simp only [hrows] at h
              simp only [Prod.mk.injEq] at h
              obtain ⟨hres, hcc, hk⟩ := h
              subst hres; subst hcc
              exact ⟨hc, fun v hv => by simp at hv⟩
            | some rows =>
              simp only [hrows] at h
              simp only [Prod.mk.injEq] at h
              obtain ⟨hres, hcc, hk⟩ := h
              subst hres; subst hcc
              have hagr : ∃ g, evalP g n db fts reg ctx ts =
                  some (.ok (e (applyContextToFact rows ctx (gr.getD ftd.grain))
                    db ctx)) :=
                ⟨1, by simp [evalP, hreg, hft, hrows]⟩
              refine ⟨?_, ?_⟩
              · intro n2 v2 hl2
                rcases lookup_setAssoc_cases _ _ _ _ _ hl2 with ⟨hkey, hval⟩ | hold
                · have hn2 : n2 = n := cacheKey_name_inj _ _ _ hkey
                  subst hn2; subst hval
                  exact hagr
                · exact hc n2 v2 hold
              · intro v hv
                injection hv with hv
                subst hv
                exact hagr
        | derived deps fmt e =>
          rcases hdep : runDeps
              (fun dep c2 => evaluateMetric fuel dep db fts reg ctx ts c2)
              deps c [] with ⟨res1, cA, k1⟩
          simp only [hdep] at h
          obtain ⟨hcA, hagree⟩ := runDeps_agrees db fts reg ts ctx _
            (fun d c2 r2 c2' k2 hc2 h2 => ih d ctx c2 r2 c2' k2 hc2 h2)
            deps c [] res1 cA k1 hc hdep
          cases res1 with
          | error e2 =>
            simp only [Prod.mk.injEq] at h
            obtain ⟨hres, hcc, hk⟩ := h
            subst hres; subst hcc
            exact ⟨hcA, fun v hv => by simp at hv⟩
          | ok depValues =>
            simp only [Prod.mk.injEq] at h
            obtain ⟨hres, hcc, hk⟩ := h
            subst hres; subst hcc
            obtain ⟨g, hg⟩ := hagree depValues rfl
            have hagr : ∃ g2, evalP g2 n db fts reg ctx ts =
                some (.ok (e depValues db ctx)) :=
              ⟨g + 1, by simp [evalP, hreg, hg]⟩
            refine ⟨?_, ?_⟩
            · intro n2 v2 hl2
              rcases lookup_setAssoc_cases _ _ _ _ _ hl2 with ⟨hkey, hval⟩ | hold
              · have hn2 : n2 = n := cacheKey_name_inj _ _ _ hkey
                subst hn2; subst hval
                exact hagr
              · exact hcA n2 v2 hold
            · intro v hv
              injection hv with hv
              subst hv
              exact hagr
        | contextTransform base tr fmt =>
          have hmem := lookup_mem hreg
          have hct := hTF _ hmem
          simp [isCT] at hct

/-- Any list tail of `evaluateMetrics`' fold keeps a thrown error. -/
lemma metricsFold_error (fuel : ℕ) (db : InMemoryDb)
    (fts : FactTableRegistry) (reg : MetricRegistry) (ctx : FilterContext)
    (ts : ContextTransformsRegistry) (e : String) :
    ∀ (names : List String),
      names.foldl (metricsStep fuel db fts reg ctx ts) (.error e) = .error e := by
  intro names
  induction names with
  | nil => rfl
  | cons m ms ih => rw [List.foldl_cons]; exact ih

/-- The shared-cache fold of `evaluateMetrics` only records values that
agree with the cache-free evaluator (transform-free registries). -/
lemma metricsFold_agrees (fuel : ℕ) (db : InMemoryDb)
    (fts : FactTableRegistry) (reg : MetricRegistry) (ctx : FilterContext)
    (ts : ContextTransformsRegistry)
    (hTF : ∀ p ∈ reg, isCT p.2 = false) :
    ∀ (names : List String) (rs : List (String × Option ℚ)) (c : Cache)
      (res : List (String × Option ℚ) × Cache),
      CacheOk db fts reg ctx ts c →
      (∀ n v, rs.lookup n = some v →
        ∃ g, evalP g n db fts reg ctx ts = some (.ok v)) →
      names.foldl (metricsStep fuel db fts reg ctx ts) (.ok (rs, c)) = .ok res →
      ∀ n v, res.1.lookup n = some v →
        ∃ g, evalP g n db fts reg ctx ts = some (.ok v) := by
  intro names
  induction names with
  | nil =>
    intro rs c res hc hrs h
    injection h with h
    subst h
    exact hrs
  | cons m ms ih =>
    intro rs c res hc hrs h
    rw [List.foldl_cons] at h
    rcases hm : evaluateMetric fuel m db fts reg ctx ts c with ⟨r1, cA, k1⟩
    cases r1 with
    | error e =>
      have hstep : metricsStep fuel db fts reg ctx ts (.ok (rs, c)) m = .error e := by
        simp [metricsStep, hm]
      rw [hstep, metricsFold_error] at h
      cases h
    | ok v =>
      have hstep : metricsStep fuel db fts reg ctx ts (.ok (rs, c)) m =
          .ok (setAssoc rs m v, cA) := by
        simp [metricsStep, hm]
      rw [hstep] at h
      obtain ⟨hcA, hagr⟩ :=
        evaluateMetric_agrees db fts reg ts hTF fuel m ctx c _ _ _ hc hm
      refine ih (setAssoc rs m v) cA res hcA ?_ h
      intro n2 v2 hl
      rcases lookup_setAssoc_cases _ _ _ _ _ hl with ⟨hn, hv⟩ | hold
      · subst hn
        rw [hv]
        exact hagr v rfl
      · exact hrs n2 v2 hold

/-- Every successful `evaluateMetric` call leaves its value stored under its
cache key (the hit branch found it there; every compute branch stores it
before returning). -/
lemma evaluateMetric_ok_cached (fuel : ℕ) (m : String) (db : InMemoryDb)
    (fts : FactTableRegistry) (reg : MetricRegistry) (ctx : FilterContext)
    (ts : ContextTransformsRegistry) (c : Cache) (v : Option ℚ) (c' : Cache)
    (k : ℕ)
    (h : evaluateMetric (fuel + 1) m db fts reg ctx ts c = (.ok v, c', k)) :
    cacheLookup c' (cacheKey m ctx) = some v := by
  simp only [evaluateMetric] at h
  iterate 8 all_goals (try split at h)
  all_goals symm at h
  all_goals simp_all [Prod.mk.injEq, cacheLookup, lookup_setAssoc_self]

/-! # Claim theorems -/

/-- C2 (counterexample): with the range `{from: 0, gt: 10}` the value `5`
violates the present `gt` bound, so under the claim it must not match, yet
`matchesFilter` returns `true` — the presence of `from`/`to` makes the code
ignore the other four bounds. -/
theorem matchesFilter_not_all_bounds :
    matchesFilter (.num 5) (.range ⟨some 0, none, none, none, some 10, none⟩) = true ∧
    specAllBoundsOk (.num 5) ⟨some 0, none, none, none, some 10, none⟩ = false := by
  constructor <;> rfl

/-- C2 (amended): for every value and range filter, if `from` or `to` is
present then `matchesFilter` checks exactly the `from`/`to` bounds (both
inclusive) and ignores `gte`/`lte`/`gt`/`lt`; otherwise it checks exactly
the `gte`/`lte` (inclusive) and `gt`/`lt` (exclusive) bounds; each missing
bound imposes no constraint, and a range with all six bounds absent matches
every value. -/
theorem matchesFilter_range_characterization (v : JValue) (f : FilterRange) :
    matchesFilter v (.range f) =
      (if f.fro.isSome || f.toB.isSome then specFromToOk v f
       else specCmpBoundsOk v f) := by
  obtain ⟨f1, f2, f3, f4, f5, f6⟩ := f
  cases f1 <;> cases f2 <;> cases f3 <;> cases f4 <;> cases f5 <;> cases f6 <;>
    simp [matchesFilter, specFromToOk, specCmpBoundsOk, if_bool_ff]

/-- C3 (counterexample): the two filter contexts hold the same key/value
pairs (`a ↦ 1`, `b ↦ 2`) inserted in different orders, yet their serialized
cache keys differ: `JSON.stringify` serializes in insertion order. -/
theorem cacheKey_not_order_independent :
    cacheKey "m" [("a", .prim (.num 1)), ("b", .prim (.num 2))] ≠
    cacheKey "m" [("b", .prim (.num 2)), ("a", .prim (.num 1))] := by decide

/-- C3 (amended): for a fixed metric name, two contexts receive equal cache
keys exactly when their insertion-order serializations coincide, and the
serialization is order-dependent, not order-independent: for all numeric
values `v`, `w`, the contexts `{a: v, b: w}` and `{b: w, a: v}` — the same
key/value pairs in different insertion orders — receive different cache
keys.  Only entries the serialization omits (`undefined`- or
function-valued ones) can change position without changing the key, e.g.
`{x: undefined, a: 1}` and `{a: 1, x: undefined}` share one key. -/
theorem cacheKey_insertion_order (m : String) (C C2 : FilterContext) (v w : ℚ) :
    (cacheKey m C = cacheKey m C2 ↔ jsonCtx C = jsonCtx C2) ∧
    cacheKey m [("a", .prim (.num v)), ("b", .prim (.num w))] ≠
      cacheKey m [("b", .prim (.num w)), ("a", .prim (.num v))] ∧
    cacheKey m [("x", .prim .undefined), ("a", .prim (.num 1))] =
      cacheKey m [("a", .prim (.num 1)), ("x", .prim .undefined)] := by
  refine ⟨⟨fun h => string_append_left_cancel _ _ _ h, ?_⟩, ?_, rfl⟩
  · intro h
    unfold cacheKey
    rw [h]
  · intro h
    have hJ : jsonCtx [("a", FilterValue.prim (JValue.num v)),
          ("b", FilterValue.prim (JValue.num w))] =
        jsonCtx [("b", FilterValue.prim (JValue.num w)),
          ("a", FilterValue.prim (JValue.num v))] :=
      string_append_left_cancel _ _ _ h
    have j1 : jsonCtx [("a", FilterValue.prim (JValue.num v)),
          ("b", FilterValue.prim (JValue.num w))] =
        ("\x7b" ++ ((("\"a\":" ++ toString v) ++ ",") ++
          ("\"b\":" ++ toString w))) ++ "\x7d" := rfl
    have j2 : jsonCtx [("b", FilterValue.prim (JValue.num w)),
          ("a", FilterValue.prim (JValue.num v))] =
        ("\x7b" ++ ((("\"b\":" ++ toString w) ++ ",") ++
          ("\"a\":" ++ toString v))) ++ "\x7d" := rfl
    rw [j1, j2] at hJ
    have hd := congrArg String.data hJ
    have d0 : ("\x7b" : String).data = ['\x7b'] := rfl
    have d1 : ("\"a\":" : String).data = ['"', 'a', '"', ':'] := rfl
    have d2 : ("\"b\":" : String).data = ['"', 'b', '"', ':'] := rfl
    have d3 : ("," : String).data = [','] := rfl
    have d4 : ("\x7d" : String).data = ['\x7d'] := rfl
    simp only [String.data_append, List.append_assoc, d0, d1, d2, d3, d4,
      List.cons_append, List.nil_append] at hd
    simp at hd

/-- C9 (counterexample): a row lacking the requested dimension `b` is
projected by `pick` to an object with no `b` property at all, and its group
key equals the group key that ignores `b` entirely — the missing dimension
value is dropped from the group key, not encoded as a sentinel. -/
theorem groupKey_drops_missing_dimension :
    pick [("a", JValue.num 1)] ["a", "b"] = [("a", JValue.num 1)] ∧
    (pick [("a", JValue.num 1)] ["a", "b"]).lookup "b" = none ∧
    jsonRow (pick [("a", JValue.num 1)] ["a", "b"]) =
      jsonRow (pick [("a", JValue.num 1)] ["a"]) := ⟨rfl, rfl, rfl⟩

/-- C9 (amended): `runQuery` groups rows by the serialized projection onto
the requested row dimensions (`jsonRow (pick r dims)`, the key built in
`runQuery`); the key is canonical in that it depends only on the row's
values at the requested dimensions — rows agreeing there land in one group
regardless of all other columns — but a missing dimension value is dropped
from the key (treated as the absence sentinel `undefined`), not encoded. -/
theorem groupKey_determined_by_projection (dims : List String) (r1 r2 : Row)
    (h : ∀ k ∈ dims, rowGet r1 k = rowGet r2 k) :
    jsonRow (pick r1 dims) = jsonRow (pick r2 dims) :=
  congrArg jsonRow (pick_congr dims r1 r2 h)

/-- Witness for the C9 amended theorem at concrete rows that differ in the
extra column `x` and both lack dimension `b`. -/
theorem groupKey_determined_by_projection_witness :
    (∀ k ∈ ["a", "b"], rowGet [("a", JValue.num 1), ("x", JValue.num 9)] k =
      rowGet [("a", JValue.num 1)] k) ∧
    jsonRow (pick [("a", JValue.num 1), ("x", JValue.num 9)] ["a", "b"]) =
      jsonRow (pick [("a", JValue.num 1)] ["a", "b"]) :=
  ⟨by decide, groupKey_determined_by_projection ["a", "b"] _ _ (by decide)⟩

/-- C4: a fact-measure metric's value depends on the filter context only
through its effective grain (its grain override, or else the fact table's
grain): two contexts with unique keys that agree, as key → filter maps, on
every key in the effective grain give the same `evaluateMetric` result. -/
theorem factMeasure_grain_property (fuel : ℕ) (m : String) (db : InMemoryDb)
    (fts : FactTableRegistry) (reg : MetricRegistry)
    (ts : ContextTransformsRegistry) (ft col : String) (agg : Option Agg)
    (gr : Option (List String)) (fmt : Option String)
    (ftd : FactTableDefinition) (rows : List Row) (C C' : FilterContext)
    (hreg : reg.lookup m = some (.factMeasure ft col agg gr fmt))
    (hft : fts.lookup ft = some ftd) (hrows : db.facts.lookup ft = some rows)
    (hn1 : (C.map Prod.fst).Nodup) (hn2 : (C'.map Prod.fst).Nodup)
    (hagree : ∀ k ∈ gr.getD ftd.grain, C.lookup k = C'.lookup k) :
    (evaluateMetric (fuel + 1) m db fts reg C ts []).1 =
      (evaluateMetric (fuel + 1) m db fts reg C' ts []).1 := by
  have hcC : cacheLookup ([] : Cache) (cacheKey m C) = none := rfl
  have hcC' : cacheLookup ([] : Cache) (cacheKey m C') = none := rfl
  have hq : applyContextToFact rows C (gr.getD ftd.grain) =
      applyContextToFact rows C' (gr.getD ftd.grain) := by
    rw [applyContextToFact_eq_filter, applyContextToFact_eq_filter]
    exact List.filter_congr
      (fun r _ => ctxPass_eq_of_agree C C' _ hn1 hn2 hagree r)
  cases hcol : ftd.measures.lookup col <;>
    simp [evaluateMetric, hcC, hcC', hreg, hft, hrows, hcol, hq]

/-- Witness for C4: contexts `{g: 1, x: 5}` and `{x: 6, g: 1}` agree on the
grain `["g"]` of metric `M` and differ outside it; both give 10. -/
theorem factMeasure_grain_property_witness :
    ((([("g", .prim (.num 1)), ("x", .prim (.num 5))] :
        FilterContext).map Prod.fst).Nodup ∧
     ∀ k ∈ (["g"] : List String),
       ([("g", .prim (.num 1)), ("x", .prim (.num 5))] :
         FilterContext).lookup k =
       ([("x", .prim (.num 6)), ("g", .prim (.num 1))] :
         FilterContext).lookup k) ∧
    (evaluateMetric 1 "M" dbA ftsA regA
        [("g", .prim (.num 1)), ("x", .prim (.num 5))] [] []).1 =
      (evaluateMetric 1 "M" dbA ftsA regA
        [("x", .prim (.num 6)), ("g", .prim (.num 1))] [] []).1 :=
  ⟨⟨by decide, by decide⟩,
    factMeasure_grain_property 0 "M" dbA ftsA regA [] "f" "v" none none none
      ⟨["g"], [("v", ⟨"v", .sum, none⟩)]⟩
      [[("g", .num 1), ("v", .num 10)], [("g", .num 2), ("v", .num 20)]]
      [("g", .prim (.num 1)), ("x", .prim (.num 5))]
      [("x", .prim (.num 6)), ("g", .prim (.num 1))]
      rfl rfl rfl (by decide) (by decide) (by decide)⟩

/-- C7: a fact-measure metric whose grain-filtered row set is empty
evaluates to 0 under aggregation `sum` and to 0 under `count`. -/
theorem factMeasure_empty_rows_zero (fuel : ℕ) (m : String) (db : InMemoryDb)
    (fts : FactTableRegistry) (reg : MetricRegistry) (ctx : FilterContext)
    (ts : ContextTransformsRegistry) (ft col : String) (agg : Option Agg)
    (gr : Option (List String)) (fmt : Option String)
    (ftd : FactTableDefinition) (rows : List Row) (fmd : FactMeasureDefinition)
    (hreg : reg.lookup m = some (.factMeasure ft col agg gr fmt))
    (hft : fts.lookup ft = some ftd) (hrows : db.facts.lookup ft = some rows)
    (hcol : ftd.measures.lookup col = some fmd)
    (hempty : applyContextToFact rows ctx (gr.getD ftd.grain) = [])
    (hagg : agg.getD fmd.defaultAgg = .sum ∨ agg.getD fmd.defaultAgg = .count) :
    (evaluateMetric (fuel + 1) m db fts reg ctx ts []).1 = .ok (some 0) := by
  have hc : cacheLookup ([] : Cache) (cacheKey m ctx) = none := rfl
  rcases hagg with h | h <;>
    simp [evaluateMetric, hc, hreg, hft, hrows, hcol, hempty, h, aggregate,
      sumRows]

/-- C5: re-evaluating the same `(metric, context)` pair through the cache
left by a successful first evaluation returns the identical value (a cached
`null` included, since the cached value is returned as stored), leaves the
cache untouched, and performs zero underlying aggregation / caller-supplied
function invocations. -/
theorem metric_cache_idempotent (f g : ℕ) (m : String) (db : InMemoryDb)
    (fts : FactTableRegistry) (reg : MetricRegistry) (ctx : FilterContext)
    (ts : ContextTransformsRegistry) (c : Cache) (v : Option ℚ) (c' : Cache)
    (k : ℕ)
    (h : evaluateMetric (f + 1) m db fts reg ctx ts c = (.ok v, c', k)) :
    evaluateMetric (g + 1) m db fts reg ctx ts c' = (.ok v, c', 0) := by
  have hc := evaluateMetric_ok_cached f m db fts reg ctx ts c v c' k h
  simp [evaluateMetric, hc]

/-- Witness for C5: after evaluating `M` once (value 30, one aggregation),
the second evaluation through the same cache returns 30 with zero
aggregations and an unchanged cache. -/
theorem metric_cache_idempotent_witness :
    evaluateMetric 1 "M" dbA ftsA regA [] [] [("M::\x7b\x7d", some 30)] =
      (.ok (some 30), [("M::\x7b\x7d", some 30)], 0) :=
  metric_cache_idempotent 0 0 "M" dbA ftsA regA [] [] [] (some 30)
    [("M::\x7b\x7d", some 30)] 1 rfl

/-- C6: a context-transform metric whose transform is registered evaluates,
from a fresh cache, to exactly what its base metric evaluates to under the
transformed context. -/
theorem contextTransform_composes (fuel : ℕ) (n : String) (db : InMemoryDb)
    (fts : FactTableRegistry) (reg : MetricRegistry) (ctx : FilterContext)
    (ts : ContextTransformsRegistry) (base tr : String) (fmt : Option String)
    (f : FilterContext → FilterContext)
    (hreg : reg.lookup n = some (.contextTransform base tr fmt))
    (htr : ts.lookup tr = some (.fn f)) :
    (evaluateMetric (fuel + 1) n db fts reg ctx ts []).1 =
      (evaluateMetric fuel base db fts reg (f ctx) ts []).1 := by
  have hc : cacheLookup ([] : Cache) (cacheKey n ctx) = none := rfl
  rcases hb : evaluateMetric fuel base db fts reg (f ctx) ts [] with ⟨r, c2, k⟩
  cases r <;> simp [evaluateMetric, hc, hreg, htr, hb]

/-- Witness for C6: the metric `Y` wraps `M` with the transform `t` mapping
any context to `{g: 2}`; both sides evaluate to 20. -/
theorem contextTransform_composes_witness :
    (evaluateMetric 2 "Y" dbA ftsA regCT [] tsCT []).1 =
      (evaluateMetric 1 "M" dbA ftsA regCT
        ((fun c => setAssoc c "g" (.prim (.num 2))) []) tsCT []).1 ∧
    (evaluateMetric 2 "Y" dbA ftsA regCT [] tsCT []).1 = .ok (some 20) :=
  ⟨contextTransform_composes 1 "Y" dbA ftsA regCT [] tsCT "M" "t" none
      (fun c => setAssoc c "g" (.prim (.num 2))) rfl rfl,
    rfl⟩

/-- C8 (counterexample): `runQuery` never consults the fact-table registry
for `factForRows` — with an empty fact-table registry (so `"f"` is absent
from it) but rows loaded for `"f"`, the query succeeds instead of failing
with `UnknownFactTable`. -/
theorem runQuery_no_registry_check :
    runQuery 2 dbA [] regD [] [] ⟨[], [], ["T7"], "f"⟩ =
      .ok [[("T7", .str "7")]] := rfl

/-- C8 (amended): a fact-measure or expression metric referencing a fact
table that is absent from the fact-table registry (or whose rows are absent
from the database) throws at the point of detection, mutating nothing and
invoking nothing, and the error is the whole call's result; `runQuery`
itself checks only that `factForRows` has loaded rows (it does not consult
the fact-table registry), failing with `UnknownFactTable` when they are
absent. -/
theorem unknownFactTable_error (fuel : ℕ) (m : String) (db : InMemoryDb)
    (fts : FactTableRegistry) (reg : MetricRegistry) (ctx : FilterContext)
    (ts : ContextTransformsRegistry) (cache : Cache) (d : MetricDefinition)
    (T : String)
    (hreg : reg.lookup m = some d) (hT : metricFactTable d = some T)
    (hmiss : cacheLookup cache (cacheKey m ctx) = none)
    (hbad : fts.lookup T = none ∨ db.facts.lookup T = none) :
    (evaluateMetric (fuel + 1) m db fts reg ctx ts cache =
      (.error (if (fts.lookup T).isSome then "Missing rows for fact table: " ++ T
               else "Unknown fact table: " ++ T), cache, 0)) ∧
    (∀ (db2 : InMemoryDb) (fts2 : FactTableRegistry) (reg2 : MetricRegistry)
       (ts2 : ContextTransformsRegistry) (dc : DimensionConfig)
       (opts : RunQueryOptions),
      db2.facts.lookup opts.factForRows = none →
      runQuery fuel db2 fts2 reg2 ts2 dc opts =
        .error ("Unknown fact table: " ++ opts.factForRows)) := by
  constructor
  · cases d with
    | derived deps fmt e => simp [metricFactTable] at hT
    | contextTransform b t fmt => simp [metricFactTable] at hT
    | factMeasure ft col agg gr fmt =>
      simp only [metricFactTable, Option.some.injEq] at hT
      subst hT
      cases hft : fts.lookup ft with
      | none => simp [evaluateMetric, hmiss, hreg, hft]
      | some ftd =>
        have hrows : db.facts.lookup ft = none := by
          rcases hbad with hb | hb
          · exact absurd hft (by simp [hb])
          · exact hb
        simp [evaluateMetric, hmiss, hreg, hft, hrows]
    | expression ft gr fmt e =>
      simp only [metricFactTable, Option.some.injEq] at hT
      subst hT
      cases hft : fts.lookup ft with
      | none => simp [evaluateMetric, hmiss, hreg, hft]
      | some ftd =>
        have hrows : db.facts.lookup ft = none := by
          rcases hbad with hb | hb
          · exact absurd hft (by simp [hb])
          · exact hb
        simp [evaluateMetric, hmiss, hreg, hft, hrows]
  · intro db2 fts2 reg2 ts2 dc opts hnone
    simp [runQuery, hnone]

/-- Witness for the C8 amended theorem: with an empty fact-table registry,
metric `M` fails with `Unknown fact table: f`; and `runQuery` over a table
with no loaded rows fails with `Unknown fact table: nope`. -/
theorem unknownFactTable_error_witness :
    (evaluateMetric 1 "M" dbA [] regA [] [] [] =
      (.error "Unknown fact table: f", [], 0)) ∧
    runQuery 0 dbA [] regA [] [] ⟨[], [], [], "nope"⟩ =
      .error "Unknown fact table: nope" := by
  have h := unknownFactTable_error 0 "M" dbA [] regA [] [] []
    (.factMeasure "f" "v" none none none) "f" rfl rfl rfl (Or.inl rfl)
  exact ⟨h.1, h.2 dbA [] regA [] [] ⟨[], [], [], "nope"⟩ rfl⟩

/-- C1: `runQuery` builds each group's row context but passes it where
`evaluateMetric` expects the transforms registry, and passes the transforms
registry as the filter context.  Consequently (i) every output row carries
the metric's global, context-free value (here `"30"` for both groups)
instead of `evaluateMetric` under the row context (10 and 20), and (ii) a
context-transform metric makes the whole query throw `Unknown context
transform` even though its transform is registered, because the transform is
looked up in the row context. -/
theorem runQuery_ignores_row_context :
    runQuery 3 dbA ftsA regA [] [] ⟨["g"], [], ["M"], "f"⟩ =
      .ok [[("g", .num 1), ("M", .str "30")], [("g", .num 2), ("M", .str "30")]] ∧
    (evaluateMetric 3 "M" dbA ftsA regA
        (jsSpread [] (ctxOfRow [("g", .num 1)])) [] []).1 = .ok (some 10) ∧
    (evaluateMetric 3 "M" dbA ftsA regA
        (jsSpread [] (ctxOfRow [("g", .num 2)])) [] []).1 = .ok (some 20) ∧
    runQuery 3 dbA ftsA regCT tsCT [] ⟨["g"], [], ["Y"], "f"⟩ =
      .error "Unknown context transform: t" := ⟨rfl, rfl, rfl, rfl⟩

/-- C10 (counterexample): the cache is not semantically transparent once
context transforms are involved.  The transforms `tf`/`tg` produce the
distinct contexts `{x: undefined}` and `{}`, which serialize to the same
cache key, and the pure expression metric `E` distinguishes them.  In
`evaluateMetrics ["ct1", "ct2"]` the shared cache replays `ct1`'s value 1
for `ct2`, although a standalone `evaluateMetric "ct2"` with a fresh empty
cache returns 2. -/
theorem evaluateMetrics_cache_not_transparent :
    evaluateMetrics 5 ["ct1", "ct2"] dbA ftsA regE [] tsE =
      .ok [("ct1", some 1), ("ct2", some 1)] ∧
    (evaluateMetric 5 "ct2" dbA ftsA regE [] tsE []).1 = .ok (some 2) ∧
    (some 1 : Option ℚ) ≠ some 2 := ⟨rfl, rfl, by decide⟩

/-- C10 (amended): for registries with no context-transform metric (so every
recursive evaluation shares the one top-level context and cache keys cannot
collide), the per-call cache is semantically transparent: every value in the
map returned by `evaluateMetrics` under the single shared cache equals the
value of a standalone `evaluateMetric` call for that name and context with a
fresh empty cache.  (With transforms, transparency can fail when two
distinct contexts serialize to the same cache key and a caller-supplied
function distinguishes them.) -/
theorem evaluateMetrics_cache_transparent (fuel G : ℕ) (names : List String)
    (db : InMemoryDb) (fts : FactTableRegistry) (reg : MetricRegistry)
    (ctx : FilterContext) (ts : ContextTransformsRegistry)
    (res : List (String × Option ℚ)) (n : String) (v w : Option ℚ)
    (c2 : Cache) (k : ℕ)
    (hTF : ∀ p ∈ reg, isCT p.2 = false)
    (hrun : evaluateMetrics fuel names db fts reg ctx ts = .ok res)
    (hres : res.lookup n = some v)
    (hsolo : evaluateMetric G n db fts reg ctx ts [] = (.ok w, c2, k)) :
    v = w := by
  have hempty : CacheOk db fts reg ctx ts [] := by
    intro n0 v0 h0
    simp [cacheLookup, List.lookup] at h0
  obtain ⟨pr, hf, hpr⟩ : ∃ pr,
      names.foldl (metricsStep fuel db fts reg ctx ts) (.ok ([], [])) = .ok pr ∧
        pr.1 = res := by
    unfold evaluateMetrics at hrun
    cases hfold : names.foldl (metricsStep fuel db fts reg ctx ts) (.ok ([], [])) with
    | error e => rw [hfold] at hrun; simp [Except.map] at hrun
    | ok pr =>
      rw [hfold] at hrun
      simp only [Except.map] at hrun
      injection hrun with hrun
      exact ⟨pr, rfl, hrun⟩
  obtain ⟨g1, hg1⟩ := metricsFold_agrees fuel db fts reg ctx ts hTF names [] []
    pr hempty (fun n0 v0 h0 => by simp [List.lookup] at h0) hf n v (hpr ▸ hres)
  obtain ⟨hcA, hagr⟩ :=
    evaluateMetric_agrees db fts reg ts hTF G n ctx [] _ _ _ hempty hsolo
  obtain ⟨g2, hg2⟩ := hagr w rfl
  have hdet := evalP_det db fts reg ts n ctx hg1 hg2
  injection hdet with hdet

/-- Witness for the C10 amended theorem on the transform-free registry
`regD`: the shared-cache map and the standalone fresh-cache call agree on
metric `M` (both 30). -/
theorem evaluateMetrics_cache_transparent_witness :
    evaluateMetrics 2 ["T7", "M"] dbA ftsA regD [] [] =
      .ok [("T7", some 7), ("M", some 30)] ∧
    (evaluateMetric 2 "M" dbA ftsA regD [] [] []).1 = .ok (some 30) ∧
    (some 30 : Option ℚ) = some 30 :=
  ⟨rfl, rfl,
    evaluateMetrics_cache_transparent 2 2 ["T7", "M"] dbA ftsA regD [] []
      [("T7", some 7), ("M", some 30)] "M" (some 30) (some 30)
      [("M::\x7b\x7d", some 30)] 1 (by decide) rfl rfl rfl⟩

/-- Witness for C7: the context `g = 3` filters both rows of `dbA` out, and
metric `M` (sum) evaluates to 0. -/
theorem factMeasure_empty_rows_zero_witness :
    (evaluateMetric 1 "M" dbA ftsA regA [("g", .prim (.num 3))] [] []).1 =
      .ok (some 0) :=
  factMeasure_empty_rows_zero 0 "M" dbA ftsA regA [("g", .prim (.num 3))] []
    "f" "v" none none none ⟨["g"], [("v", ⟨"v", .sum, none⟩)]⟩
    [[("g", .num 1), ("v", .num 10)], [("g", .num 2), ("v", .num 20)]]
    ⟨"v", .sum, none⟩ rfl rfl rfl rfl (by decide) (Or.inl rfl)

end SemanticEngine
